import Mathlib

/-!
Verification of the sigpy iterative-algorithm core (alg.py, app.py).

Arrays are modelled as real-valued vectors indexed by Fin n.  In-place
mutation of named arrays (needed for aliasing claims) is modelled through an
explicit store mapping natural-number locations to vectors.  Fallible Python
code (raise) is modelled with Except.  All scalars are real numbers.
-/

set_option maxHeartbeats 1000000

/-- Arrays of the array capability: real vectors of length n. -/
abbrev Arr (n : ℕ) : Type := Fin n → ℝ

namespace util

/-- Inner product, as computed by the dot routine of the array capability. -/
noncomputable def dot {n : ℕ} (x y : Arr n) : ℝ := ∑ i, x i * y i

/-- Squared norm, as computed by the norm2 routine of the array capability. -/
noncomputable def norm2 {n : ℕ} (x : Arr n) : ℝ := ∑ i, x i * x i

/-- Heap write: updates the array stored at location l. -/
def write {n : ℕ} (h : ℕ → Arr n) (l : ℕ) (v : Arr n) : ℕ → Arr n :=
  fun l2 => if l2 = l then v else h l2

theorem write_self {n : ℕ} (h : ℕ → Arr n) (l : ℕ) (v : Arr n) :
    write h l v l = v := by
  simp [write]

theorem write_ne {n : ℕ} (h : ℕ → Arr n) (l l2 : ℕ) (v : Arr n)
    (hne : l2 ≠ l) : write h l v l2 = h l2 := by
  simp [write, hne]

end util

/-! ### The harness (App.run, app.py lines 49-69)

App.run calls the app-level init hook, then alg.init, then loops
while not alg.done(): pre-update hook, alg.update, post-update hook,
summarize hook; on loop exit it calls alg.cleanup then the app cleanup
hook and returns the output.  The pre/post-update hooks are no-ops in
the base class and in every concrete app of app.py, so they are not
modelled; the summarize hook is modelled because LinearLeastSquares
overrides it with a fallible computation.  There is no try/finally
anywhere in run.  A Python exception is an Except.error; the loop is
driven by fuel, and running out of fuel is reported as an error (the
Python loop would simply never reach the cleanup calls). -/

/-- Observable lifecycle events of a harness run. -/
inductive HEv : Type where
  | update : HEv
  | summarize : HEv
  | algCleanup : HEv
  | appCleanup : HEv
deriving DecidableEq

/-- An algorithm together with the hooks the harness drives (App + Alg). -/
structure HApp (S : Type) where
  algInit : S → S
  algUpdate : S → Except String S
  algDone : S → Bool
  algCleanup : S → S
  summarize : S → Except String Unit

namespace App

/-- The while-loop of App.run, with an explicit event log. -/
def runLoop {S : Type} (a : HApp S) : ℕ → S → List HEv → List HEv × Except String S
  | 0, _, log => (log, Except.error "maximum recursion depth exceeded")
  | Nat.succ fuel, s, log =>
    if a.algDone s then
      (log ++ [HEv.algCleanup, HEv.appCleanup], Except.ok (a.algCleanup s))
    else
      match a.algUpdate s with
      | Except.error e => (log, Except.error e)
      | Except.ok s2 =>
        match a.summarize s2 with
        | Except.error e => (log ++ [HEv.update], Except.error e)
        | Except.ok _ => runLoop a fuel s2 (log ++ [HEv.update, HEv.summarize])

/-- App.run: init, iterate, cleanup, output. -/
def run {S : Type} (a : HApp S) (fuel : ℕ) (s0 : S) : List HEv × Except String S :=
  runLoop a fuel (a.algInit s0) []

theorem runLoop_ok_mem_cleanup {S : Type} (a : HApp S) :
    ∀ (fuel : ℕ) (s : S) (log : List HEv) (v : S),
      (runLoop a fuel s log).2 = Except.ok v →
      HEv.algCleanup ∈ (runLoop a fuel s log).1 := by
  intro fuel
  induction fuel with
  | zero => intro s log v h; simp [runLoop] at h
  | succ fuel ih =>
    intro s log v h
    by_cases hd : a.algDone s
    · simp [runLoop, hd]
    · simp only [runLoop, hd, if_neg, Bool.false_eq_true, if_false]
      cases hu : a.algUpdate s with
      | error e => simp [runLoop, hd, hu] at h
      | ok s2 =>
        cases hs : a.summarize s2 with
        | error e => simp [runLoop, hd, hu, hs] at h
        | ok _ =>
          simp only [runLoop, hd, hu, hs, Bool.false_eq_true, if_false] at h ⊢
          exact ih s2 (log ++ [HEv.update, HEv.summarize]) v h

theorem runLoop_error_cleanup_not_mem {S : Type} (a : HApp S) :
    ∀ (fuel : ℕ) (s : S) (log : List HEv) (e : String),
      (runLoop a fuel s log).2 = Except.error e →
      HEv.algCleanup ∉ log →
      HEv.algCleanup ∉ (runLoop a fuel s log).1 := by
  intro fuel
  induction fuel with
  | zero => intro s log e h hlog; simpa [runLoop] using hlog
  | succ fuel ih =>
    intro s log e h hlog
    by_cases hd : a.algDone s
    · simp [runLoop, hd] at h
    · cases hu : a.algUpdate s with
      | error e2 =>
        simpa [runLoop, hd, hu] using hlog
      | ok s2 =>
        cases hs : a.summarize s2 with
        | error e2 =>
          simp only [runLoop, hd, hu, hs, Bool.false_eq_true, if_false]
          intro hcon
          rcases List.mem_append.mp hcon with hin | hin
          · exact hlog hin
          · simp at hin
        | ok _ =>
          simp only [runLoop, hd, hu, hs, Bool.false_eq_true, if_false] at h ⊢
          refine ih s2 (log ++ [HEv.update, HEv.summarize]) e h ?_
          intro hcon
          rcases List.mem_append.mp hcon with hin | hin
          · exact hlog hin
          · simp at hin

end App

/-- A concrete algorithm whose update raises on the first iteration. -/
def failingApp : HApp ℕ where
  algInit := id
  algUpdate := fun _ => Except.error "boom"
  algDone := fun _ => false
  algCleanup := fun s => s + 1
  summarize := fun _ => Except.ok ()

/-- C2 counterexample: a harness run in which the update raises; the failure
propagates with the error, and the cleanup event never occurs, refuting the
claim that the bound algorithm is always cleaned up before propagation. -/
theorem App.run_exception_skips_cleanup :
    (App.run failingApp 5 0).2 = Except.error "boom" ∧
    HEv.algCleanup ∉ (App.run failingApp 5 0).1 := by
  constructor
  · rfl
  · intro h
    simp [App.run, App.runLoop, failingApp] at h

/-- C2 amended: the algorithm cleanup hook runs exactly on a normal exit of
the iteration loop: a run that returns a value has executed the cleanup,
while a run that propagates a failure has not executed it. -/
theorem App.cleanup_iff_normal_exit {S : Type} (a : HApp S) (fuel : ℕ) (s0 : S) :
    (∀ v : S, (App.run a fuel s0).2 = Except.ok v →
      HEv.algCleanup ∈ (App.run a fuel s0).1) ∧
    (∀ e : String, (App.run a fuel s0).2 = Except.error e →
      HEv.algCleanup ∉ (App.run a fuel s0).1) := by
  constructor
  · intro v h
    exact App.runLoop_ok_mem_cleanup a fuel (a.algInit s0) [] v h
  · intro e h
    exact App.runLoop_error_cleanup_not_mem a fuel (a.algInit s0) [] e h
      (by simp)

/-- C2 amended witness: at the concrete failing run the error propagates and
the cleanup event is absent from the log. -/
theorem App.cleanup_iff_normal_exit_witness :
    HEv.algCleanup ∉ (App.run failingApp 5 0).1 :=
  (App.cleanup_iff_normal_exit failingApp 5 0).2 "boom" rfl

/-! ### ConjugateGradient (alg.py lines 180-249)

The b array is mutated in place by init and the residual r is bound to the
very same array, so arrays are modelled through an explicit store from
locations to vectors.  The state keeps the locations of x, b, r, p together
with the scalar fields of the instance.  Alg.update runs the variant update
and then increments the iteration counter, and Alg.init zeroes the counter
before the variant init; both are folded into the definitions below. -/

structure ConjugateGradient.State (n : ℕ) : Type where
  store : ℕ → Arr n
  xl : ℕ
  bl : ℕ
  rl : ℕ
  pl : ℕ
  alpha : Option ℝ
  rzold : ℝ
  resid : ℝ
  zero_gradient : Bool
  iter : ℕ
  max_iter : ℕ

namespace ConjugateGradient

/-- CG init: b -= A(x) in place, r aliases b, p is z (copied when more than
one iteration is permitted, where z is r itself without a preconditioner),
the zero-curvature flag is cleared and rzold, resid are computed.  freshl is
the location of the newly allocated copy. -/
noncomputable def init {n : ℕ} (A : Arr n → Arr n) (P : Option (Arr n → Arr n))
    (h0 : ℕ → Arr n) (xl bl freshl max_iter : ℕ) : State n :=
  let h1 := util.write h0 bl (fun i => h0 bl i - A (h0 xl) i)
  let rl := bl
  let z : Arr n := match P with
    | none => h1 rl
    | some Pf => Pf (h1 rl)
  let plh : ℕ × (ℕ → Arr n) :=
    if 1 < max_iter then (freshl, util.write h1 freshl z)
    else
      match P with
      | none => (rl, h1)
      | some _ => (freshl, util.write h1 freshl z)
  let rz := util.dot (h1 rl) z
  { store := plh.2, xl := xl, bl := bl, rl := rl, pl := plh.1,
    alpha := none, rzold := rz, resid := Real.sqrt rz,
    zero_gradient := false, iter := 0, max_iter := max_iter }

/-- CG update (including the iteration-count increment of Alg.update).
If the curvature p.Ap is zero the zero-curvature flag is set and nothing
else changes; otherwise x is advanced, and except on the final permitted
iteration r, p and rzold are refreshed. -/
noncomputable def update {n : ℕ} (A : Arr n → Arr n) (P : Option (Arr n → Arr n))
    (s : State n) : State n :=
  let p := s.store s.pl
  let Ap := A p
  let pAp := util.dot p Ap
  if pAp = 0 then { s with zero_gradient := true, iter := s.iter + 1 }
  else
    let al := s.rzold / pAp
    let h1 := util.write s.store s.xl (fun i => s.store s.xl i + al * p i)
    if s.iter < s.max_iter - 1 then
      let h2 := util.write h1 s.rl (fun i => h1 s.rl i - al * Ap i)
      let z : Arr n := match P with
        | none => h2 s.rl
        | some Pf => Pf (h2 s.rl)
      let rznew := util.dot (h2 s.rl) z
      let beta := rznew / s.rzold
      let h3 := util.write h2 s.pl (fun i => z i + beta * h2 s.pl i)
      { s with
        store := h3, alpha := some al, rzold := rznew,
        resid := Real.sqrt rznew, iter := s.iter + 1 }
    else
      { s with
        store := h1, alpha := some al,
        resid := Real.sqrt s.rzold, iter := s.iter + 1 }

/-- CG termination predicate (iteration bound, zero-curvature flag, or a
residual of exactly zero). -/
def done {n : ℕ} (s : State n) : Prop :=
  s.max_iter ≤ s.iter ∨ s.zero_gradient = true ∨ s.resid = 0

end ConjugateGradient

/-- C5: on zero curvature the CG update sets the zero-curvature flag and
changes nothing else (the whole store, hence x, r and p, and the scalars
rzold, alpha, resid are untouched); the termination predicate then holds, so
the harness loop exits normally and runs the cleanup hooks; the termination
predicate also holds whenever the residual is exactly zero or the iteration
bound has been reached. -/
theorem ConjugateGradient.zero_curvature_is_convergence {n : ℕ}
    (A : Arr n → Arr n) (P : Option (Arr n → Arr n)) (s : State n)
    (h : util.dot (s.store s.pl) (A (s.store s.pl)) = 0) :
    (update A P s).zero_gradient = true ∧
    (update A P s).store = s.store ∧
    (update A P s).rzold = s.rzold ∧
    (update A P s).alpha = s.alpha ∧
    (update A P s).resid = s.resid ∧
    done (update A P s) ∧
    (∀ t : State n, t.resid = 0 → done t) ∧
    (∀ t : State n, t.max_iter ≤ t.iter → done t) ∧
    (∀ {S : Type} (a : HApp S) (fuel : ℕ) (st : S) (log : List HEv),
      a.algDone st = true →
      (App.runLoop a (fuel + 1) st log).2 = Except.ok (a.algCleanup st) ∧
      HEv.algCleanup ∈ (App.runLoop a (fuel + 1) st log).1) := by
  have hu : update A P s = { s with zero_gradient := true, iter := s.iter + 1 } := by
    rw [update]
    simp only [h, if_pos]
  refine ⟨by rw [hu], by rw [hu], by rw [hu], by rw [hu], by rw [hu], ?_, ?_, ?_, ?_⟩
  · rw [hu]; exact Or.inr (Or.inl rfl)
  · intro t ht; exact Or.inr (Or.inr ht)
  · intro t ht; exact Or.inl ht
  · intro S a fuel st log hdone
    constructor
    · simp [App.runLoop, hdone]
    · simp [App.runLoop, hdone]

/-- A linear map sending everything to zero, giving zero curvature. -/
def cgZeroMap : Arr 1 → Arr 1 := fun _ => fun _ => 0

/-- A concrete CG state with ones in every array cell. -/
noncomputable def cgOnesState : ConjugateGradient.State 1 :=
  { store := fun _ => fun _ => 1, xl := 0, bl := 1, rl := 1, pl := 2,
    alpha := none, rzold := 1, resid := 1, zero_gradient := false,
    iter := 0, max_iter := 3 }

/-- C5 witness: at the concrete zero-curvature input the flag is set and the
termination predicate holds. -/
theorem ConjugateGradient.zero_curvature_is_convergence_witness :
    (ConjugateGradient.update cgZeroMap none cgOnesState).zero_gradient = true ∧
    ConjugateGradient.done (ConjugateGradient.update cgZeroMap none cgOnesState) := by
  have h := ConjugateGradient.zero_curvature_is_convergence cgZeroMap none cgOnesState
    (by simp [util.dot, cgZeroMap])
  exact ⟨h.1, h.2.2.2.2.2.1⟩

/-- C9: CG init subtracts A(x) from the caller-supplied b array in place and
binds r to the very same array (same location), so the observation array is
overwritten at init (and differs from the original whenever A(x) is nonzero);
and in the residual-refreshing branch of update, the array at the b location
receives the new residual value, so b keeps being mutated by every update
that modifies r. -/
theorem ConjugateGradient.b_is_aliased_and_overwritten {n : ℕ}
    (A : Arr n → Arr n) (P : Option (Arr n → Arr n))
    (h0 : ℕ → Arr n) (xl bl freshl max_iter : ℕ) (t : State n)
    (hfb : freshl ≠ bl)
    (hax : A (h0 xl) ≠ 0)
    (htrb : t.rl = t.bl)
    (htp : t.pl ≠ t.bl)
    (htx : t.xl ≠ t.bl)
    (hpap : util.dot (t.store t.pl) (A (t.store t.pl)) ≠ 0)
    (hit : t.iter < t.max_iter - 1) :
    (init A P h0 xl bl freshl max_iter).rl = (init A P h0 xl bl freshl max_iter).bl ∧
    (∀ i, (init A P h0 xl bl freshl max_iter).store bl i = h0 bl i - A (h0 xl) i) ∧
    (init A P h0 xl bl freshl max_iter).store bl ≠ h0 bl ∧
    (update A P t).rl = t.bl ∧
    (∀ i, (update A P t).store t.bl i =
      t.store t.rl i -
        (t.rzold / util.dot (t.store t.pl) (A (t.store t.pl))) * A (t.store t.pl) i) := by
  have hstore : ∀ i, (init A P h0 xl bl freshl max_iter).store bl i =
      h0 bl i - A (h0 xl) i := by
    intro i
    by_cases hm : 1 < max_iter
    · cases P <;> simp [init, util.write, hm, Ne.symm hfb]
    · cases P <;> simp [init, util.write, hm, Ne.symm hfb]
  refine ⟨rfl, hstore, ?_, ?_, ?_⟩
  · intro heq
    apply hax
    funext i
    have h3 : h0 bl i - A (h0 xl) i = h0 bl i := (hstore i).symm.trans (congrFun heq i)
    simpa using sub_eq_self.mp h3
  · simp only [update]
    rw [if_neg hpap, if_pos hit]
    exact htrb
  · intro i
    simp only [update]
    rw [if_neg hpap, if_pos hit]
    have hrlxl : t.rl ≠ t.xl := fun hcon => htx (hcon ▸ htrb)
    have hrlp : t.rl ≠ t.pl := fun hcon => htp (hcon ▸ htrb)
    simp [util.write, htrb.symm, hrlp, hrlxl]

/-- The identity operator on length-1 arrays. -/
def idMap1 : Arr 1 → Arr 1 := fun v => v

/-- A concrete store: x lives at location 0, b at location 1, scratch at 2. -/
def cgStore1 : ℕ → Arr 1 :=
  fun l => if l = 0 then (fun _ => 1) else if l = 1 then (fun _ => 3) else fun _ => 2

/-- A concrete CG state whose r location equals its b location. -/
def cgAliasState : ConjugateGradient.State 1 :=
  { store := cgStore1, xl := 0, bl := 1, rl := 1, pl := 2,
    alpha := none, rzold := 9, resid := 3, zero_gradient := false,
    iter := 0, max_iter := 5 }

/-- C9 witness: at the concrete inputs the b array is changed by init and the
alias persists through update. -/
theorem ConjugateGradient.b_is_aliased_and_overwritten_witness :
    (ConjugateGradient.init idMap1 none cgStore1 0 1 2 5).store 1 ≠ cgStore1 1 ∧
    (ConjugateGradient.update idMap1 none cgAliasState).rl = cgAliasState.bl := by
  have h := ConjugateGradient.b_is_aliased_and_overwritten idMap1 none cgStore1 0 1 2 5
    cgAliasState
    (by norm_num)
    (by
      intro hcon
      have h0 := congrFun hcon 0
      simp [idMap1, cgStore1] at h0)
    rfl
    (by simp [cgAliasState])
    (by simp [cgAliasState])
    (by simp [cgAliasState, cgStore1, idMap1, util.dot])
    (by simp [cgAliasState])
  exact ⟨h.2.2.1, h.2.2.2.1⟩

/-! ### PrimalDualHybridGradient (alg.py lines 291-392)

Step sizes are taken as scalars (the claims under check are stated for
scalar step sizes; for a scalar the amin of the elementwise absolute value
is the absolute value itself). -/

structure PDHGParams (n m : ℕ) : Type where
  proxfc : ℝ → Arr m → Arr m
  proxg : ℝ → Arr n → Arr n
  A : Arr n → Arr m
  AH : Arr m → Arr n
  gradh : Option (Arr n → Arr n)
  theta : ℝ
  gammaPrimal : ℝ
  gammaDual : ℝ

structure PDHGState (n m : ℕ) : Type where
  x : Arr n
  u : Arr m
  xExt : Arr n
  xOld : Arr n
  uOld : Arr m
  tau : ℝ
  sigma : ℝ
  resid : ℝ
  iter : ℕ
  max_iter : ℕ

namespace PrimalDualHybridGradient

/-- The step-size block of the PDHG update: when exactly one strong-convexity
parameter is positive, tau and sigma are rescaled by the computed theta,
otherwise the constructor-supplied theta is returned unchanged. -/
noncomputable def rebalance (gammaPrimal gammaDual tau sigma theta0 : ℝ) :
    ℝ × ℝ × ℝ :=
  if 0 < gammaPrimal ∧ gammaDual = 0 then
    let th := 1 / Real.sqrt (1 + 2 * gammaPrimal * |tau|)
    (tau * th, sigma / th, th)
  else if gammaPrimal = 0 ∧ 0 < gammaDual then
    let th := 1 / Real.sqrt (1 + 2 * gammaDual * |sigma|)
    (tau / th, sigma * th, th)
  else (tau, sigma, theta0)

/-- PDHG update (with the iteration increment of Alg.update): snapshot the
old iterates, dual ascent through proxfc, primal descent through proxg with
the optional explicit gradient term, step-size rebalancing, extrapolation of
the primal with the theta of this iteration, and the combined residual. -/
noncomputable def update {n m : ℕ} (P : PDHGParams n m) (s : PDHGState n m) :
    PDHGState n m :=
  let uOld := s.u
  let xOld := s.x
  let u1 := fun i => s.u i + s.sigma * P.A s.xExt i
  let u2 := P.proxfc s.sigma u1
  let dx0 := P.AH u2
  let dx := match P.gradh with
    | some gh => fun i => dx0 i + gh s.x i
    | none => dx0
  let x1 := fun i => s.x i - s.tau * dx i
  let x2 := P.proxg s.tau x1
  let tst := rebalance P.gammaPrimal P.gammaDual s.tau s.sigma P.theta
  let xDiff := fun i => x2 i - xOld i
  let xExt2 := fun i => x2 i + tst.2.2 * xDiff i
  let uDiff := fun i => u2 i - uOld i
  let resid2 := Real.sqrt
    (util.norm2 (fun i => xDiff i / Real.sqrt tst.1) +
     util.norm2 (fun i => uDiff i / Real.sqrt tst.2.1))
  { s with
    x := x2, u := u2, xExt := xExt2, xOld := xOld, uOld := uOld,
    tau := tst.1, sigma := tst.2.1, resid := resid2, iter := s.iter + 1 }

theorem update_tau (P : PDHGParams n m) (s : PDHGState n m) :
    (update P s).tau =
      (rebalance P.gammaPrimal P.gammaDual s.tau s.sigma P.theta).1 := rfl

theorem update_sigma (P : PDHGParams n m) (s : PDHGState n m) :
    (update P s).sigma =
      (rebalance P.gammaPrimal P.gammaDual s.tau s.sigma P.theta).2.1 := rfl

theorem one_lt_sqrt_aux {g c : ℝ} (hg : 0 < g) (hc : 0 < c) :
    1 < Real.sqrt (1 + 2 * g * |c|) := by
  have habs : |c| = c := abs_of_pos hc
  have h1 : (1 : ℝ) < 1 + 2 * g * |c| := by
    rw [habs]
    nlinarith
  have := Real.sqrt_lt_sqrt (by norm_num) h1
  simpa using this

theorem rebalance_primal {g tau sigma : ℝ} (theta0 : ℝ) (hg : 0 < g)
    (ht : 0 < tau) (hs : 0 < sigma) :
    (rebalance g 0 tau sigma theta0).1 < tau ∧
    sigma < (rebalance g 0 tau sigma theta0).2.1 := by
  have hcond : 0 < g ∧ (0 : ℝ) = 0 := ⟨hg, rfl⟩
  have hsq : 1 < Real.sqrt (1 + 2 * g * |tau|) := one_lt_sqrt_aux hg ht
  have hsqpos : 0 < Real.sqrt (1 + 2 * g * |tau|) := lt_trans one_pos hsq
  have hth1 : 1 / Real.sqrt (1 + 2 * g * |tau|) < 1 := by
    rw [div_lt_one hsqpos]; exact hsq
  have hthpos : 0 < 1 / Real.sqrt (1 + 2 * g * |tau|) := by positivity
  constructor
  · rw [rebalance, if_pos hcond]
    exact mul_lt_of_lt_one_right ht hth1
  · rw [rebalance, if_pos hcond]
    rw [lt_div_iff hthpos]
    exact mul_lt_of_lt_one_right hs hth1

theorem rebalance_dual {g tau sigma : ℝ} (theta0 : ℝ) (hg : 0 < g)
    (ht : 0 < tau) (hs : 0 < sigma) :
    tau < (rebalance 0 g tau sigma theta0).1 ∧
    (rebalance 0 g tau sigma theta0).2.1 < sigma := by
  have hcond1 : ¬((0 : ℝ) < 0 ∧ g = 0) := by
    rintro ⟨hcon, -⟩; exact lt_irrefl 0 hcon
  have hcond2 : (0 : ℝ) = 0 ∧ 0 < g := ⟨rfl, hg⟩
  have hsq : 1 < Real.sqrt (1 + 2 * g * |sigma|) := one_lt_sqrt_aux hg hs
  have hsqpos : 0 < Real.sqrt (1 + 2 * g * |sigma|) := lt_trans one_pos hsq
  have hth1 : 1 / Real.sqrt (1 + 2 * g * |sigma|) < 1 := by
    rw [div_lt_one hsqpos]; exact hsq
  have hthpos : 0 < 1 / Real.sqrt (1 + 2 * g * |sigma|) := by positivity
  constructor
  · rw [rebalance, if_neg hcond1, if_pos hcond2]
    rw [lt_div_iff hthpos]
    exact mul_lt_of_lt_one_right ht hth1
  · rw [rebalance, if_neg hcond1, if_pos hcond2]
    exact mul_lt_of_lt_one_right hs hth1

end PrimalDualHybridGradient

/-- C4: for positive scalar step sizes, one PDHG update multiplies tau and
divides sigma by theta = 1/sqrt(1 + 2 gamma_primal |tau|) < 1 when
gamma_primal > 0 and gamma_dual = 0 (so tau strictly decreases and sigma
strictly increases); symmetrically with the roles swapped when
gamma_dual > 0 and gamma_primal = 0; and when both are zero the step sizes
are unchanged and the constructor-supplied theta is the extrapolation
coefficient. -/
theorem PrimalDualHybridGradient.step_size_monotonicity {n m : ℕ}
    (P : PDHGParams n m) (s : PDHGState n m)
    (ht : 0 < s.tau) (hs : 0 < s.sigma) :
    (0 < P.gammaPrimal ∧ P.gammaDual = 0 →
      (update P s).tau = s.tau * (1 / Real.sqrt (1 + 2 * P.gammaPrimal * |s.tau|)) ∧
      (update P s).tau < s.tau ∧ s.sigma < (update P s).sigma) ∧
    (P.gammaPrimal = 0 ∧ 0 < P.gammaDual →
      (update P s).sigma = s.sigma * (1 / Real.sqrt (1 + 2 * P.gammaDual * |s.sigma|)) ∧
      s.tau < (update P s).tau ∧ (update P s).sigma < s.sigma) ∧
    (P.gammaPrimal = 0 ∧ P.gammaDual = 0 →
      (update P s).tau = s.tau ∧ (update P s).sigma = s.sigma ∧
      (update P s).xExt =
        fun i => (update P s).x i + P.theta * ((update P s).x i - s.x i)) := by
  refine ⟨?_, ?_, ?_⟩
  · rintro ⟨hg, hd⟩
    refine ⟨?_, ?_⟩
    · rw [update_tau, hd, rebalance, if_pos ⟨hg, rfl⟩]
    · have h := rebalance_primal P.theta hg ht hs
      rw [update_tau, update_sigma, hd]
      exact h
  · rintro ⟨hg, hd⟩
    refine ⟨?_, ?_⟩
    · rw [update_sigma, hg, rebalance,
        if_neg (by rintro ⟨hcon, -⟩; exact lt_irrefl 0 hcon), if_pos ⟨rfl, hd⟩]
    · have h := rebalance_dual P.theta hd ht hs
      rw [update_tau, update_sigma, hg]
      exact ⟨h.1, h.2⟩
  · rintro ⟨hg, hd⟩
    have hre : rebalance P.gammaPrimal P.gammaDual s.tau s.sigma P.theta =
        (s.tau, s.sigma, P.theta) := by
      rw [hg, hd, rebalance,
        if_neg (by rintro ⟨hcon, -⟩; exact lt_irrefl 0 hcon),
        if_neg (by rintro ⟨-, hcon⟩; exact lt_irrefl 0 hcon)]
    refine ⟨?_, ?_, ?_⟩
    · rw [update_tau, hre]
    · rw [update_sigma, hre]
    · funext i
      simp only [update, hre]

/-- Concrete PDHG parameters with gamma_primal = 1 and gamma_dual = 0. -/
noncomputable def pdhgPrimalParams : PDHGParams 1 1 :=
  { proxfc := fun _ v => v, proxg := fun _ v => v,
    A := fun v => v, AH := fun v => v, gradh := none,
    theta := 1, gammaPrimal := 1, gammaDual := 0 }

/-- A concrete PDHG state with unit step sizes. -/
noncomputable def pdhgUnitState : PDHGState 1 1 :=
  { x := fun _ => 0, u := fun _ => 0, xExt := fun _ => 0,
    xOld := fun _ => 0, uOld := fun _ => 0,
    tau := 1, sigma := 1, resid := 0, iter := 0, max_iter := 10 }

/-- C4 witness: at the concrete primal-rebalancing instance tau strictly
decreases and sigma strictly increases. -/
theorem PrimalDualHybridGradient.step_size_monotonicity_witness :
    (PrimalDualHybridGradient.update pdhgPrimalParams pdhgUnitState).tau <
      pdhgUnitState.tau ∧
    pdhgUnitState.sigma <
      (PrimalDualHybridGradient.update pdhgPrimalParams pdhgUnitState).sigma := by
  have h := (PrimalDualHybridGradient.step_size_monotonicity pdhgPrimalParams
    pdhgUnitState (by norm_num [pdhgUnitState]) (by norm_num [pdhgUnitState])).1
    ⟨by norm_num [pdhgPrimalParams], rfl⟩
  exact h.2

/-! ### NewtonsMethod (alg.py lines 252-288)

The update body computes hessf(x), the proximal point s, the direction
d = s - x and assigns the Newton decrement, and then executes
x += alpha * d where the name alpha is bound nowhere (not a local, not an
attribute of the class, not a module-level name of alg.py), so Python
raises NameError at that line on every call; x is left unchanged and the
already-assigned decrement remains.  The pair returned below carries the
post-mutation state and the raised error. -/

structure NewtonsMethod.State (n : ℕ) : Type where
  x : Arr n
  lamda : ℝ

/-- Newton update: the straight-line translation of the update body, with
the unbound-name failure of its last statement. -/
noncomputable def NewtonsMethod.update {n : ℕ} (gradf : Arr n → Arr n)
    (hessf : Arr n → Arr n → Arr n)
    (proxHg : (Arr n → Arr n) → Arr n → Arr n)
    (st : NewtonsMethod.State n) : NewtonsMethod.State n × Option String :=
  let hessfx := hessf st.x
  let s := proxHg hessfx (fun i => hessfx st.x i - gradf st.x i)
  let d := fun i => s i - st.x i
  let lamda := Real.sqrt (util.dot d (hessfx d))
  ({ st with lamda := lamda }, some "NameError: name alpha is not defined")

/-- C7 (code bug): every NewtonsMethod update raises the unbound-name error
instead of completing, and the iterate x is never advanced along d. -/
theorem NewtonsMethod.update_always_raises {n : ℕ} (gradf : Arr n → Arr n)
    (hessf : Arr n → Arr n → Arr n)
    (proxHg : (Arr n → Arr n) → Arr n → Arr n)
    (st : NewtonsMethod.State n) :
    (NewtonsMethod.update gradf hessf proxHg st).2 =
      some "NameError: name alpha is not defined" ∧
    (NewtonsMethod.update gradf hessf proxHg st).1.x = st.x :=
  ⟨rfl, rfl⟩

/-! ### Attribute lifetimes of init and cleanup (C8)

GradientMethod._init introduces z and t when accelerating, x_old when
accelerating or proximal, and always resid; its _cleanup deletes z, t and
x_old under the same conditions but leaves resid.  The ConjugateGradient
constructor introduces rzold; its _init introduces r, p, zero_gradient and
resid (and reassigns rzold); its _cleanup deletes r, p and rzold but leaves
zero_gradient and resid.  PrimalDualHybridGradient._init introduces x_ext,
u_old and x_old, and its _cleanup deletes exactly those three.  Attribute
presence is modelled as a record of Booleans (true = the attribute
exists). -/

structure GradientMethod.Fields : Type where
  z : Bool
  t : Bool
  x_old : Bool
  resid : Bool
deriving DecidableEq

def GradientMethod.initFields (accelerate proxgPresent : Bool)
    (f : GradientMethod.Fields) : GradientMethod.Fields :=
  { z := if accelerate then true else f.z,
    t := if accelerate then true else f.t,
    x_old := if accelerate || proxgPresent then true else f.x_old,
    resid := true }

def GradientMethod.cleanupFields (accelerate proxgPresent : Bool)
    (f : GradientMethod.Fields) : GradientMethod.Fields :=
  { z := if accelerate then false else f.z,
    t := if accelerate then false else f.t,
    x_old := if accelerate || proxgPresent then false else f.x_old,
    resid := f.resid }

structure ConjugateGradient.Fields : Type where
  r : Bool
  p : Bool
  rzold : Bool
  zero_gradient : Bool
  resid : Bool
deriving DecidableEq

def ConjugateGradient.initFields (_f : ConjugateGradient.Fields) :
    ConjugateGradient.Fields :=
  { r := true, p := true, rzold := true, zero_gradient := true, resid := true }

def ConjugateGradient.cleanupFields (f : ConjugateGradient.Fields) :
    ConjugateGradient.Fields :=
  { f with r := false, p := false, rzold := false }

/-- The attribute state of a freshly constructed ConjugateGradient: the
constructor assigns rzold (alg.py line 199); everything else appears only
at init. -/
def cgNewFields : ConjugateGradient.Fields :=
  { r := false, p := false, rzold := true, zero_gradient := false, resid := false }

structure PrimalDualHybridGradient.Fields : Type where
  x_ext : Bool
  u_old : Bool
  x_old : Bool
deriving DecidableEq

def PrimalDualHybridGradient.initFields (_f : PrimalDualHybridGradient.Fields) :
    PrimalDualHybridGradient.Fields :=
  { x_ext := true, u_old := true, x_old := true }

def PrimalDualHybridGradient.cleanupFields (f : PrimalDualHybridGradient.Fields) :
    PrimalDualHybridGradient.Fields :=
  { f with x_ext := false, u_old := false, x_old := false }

/-- The attribute state of a freshly constructed GradientMethod. -/
def gmFreshFields : GradientMethod.Fields :=
  { z := false, t := false, x_old := false, resid := false }

/-- C8 counterexample: for plain GradientMethod the resid attribute is
introduced by init yet still present after cleanup, refuting the claim that
after cleanup no init-introduced field remains. -/
theorem GradientMethod.resid_survives_cleanup :
    gmFreshFields.resid = false ∧
    (GradientMethod.initFields false false gmFreshFields).resid = true ∧
    (GradientMethod.cleanupFields false false
      (GradientMethod.initFields false false gmFreshFields)).resid = true := by
  decide

/-- C8 amended: PrimalDualHybridGradient keeps the invariant as stated -
every attribute its init introduces (x_ext, u_old, x_old) is released by
cleanup; GradientMethod and ConjugateGradient release their buffer
attributes (z, t, x_old under their introduction conditions; r, p, and the
constructor-introduced rzold) but the scalar attributes their init
introduces - resid of both, and the zero-curvature flag of
ConjugateGradient - remain present after cleanup. -/
theorem Alg.cleanup_releases_buffers_only
    (acc pg : Bool) (f : GradientMethod.Fields) (c : ConjugateGradient.Fields)
    (p : PrimalDualHybridGradient.Fields) :
    (PrimalDualHybridGradient.cleanupFields
      (PrimalDualHybridGradient.initFields p)).x_ext = false ∧
    (PrimalDualHybridGradient.cleanupFields
      (PrimalDualHybridGradient.initFields p)).u_old = false ∧
    (PrimalDualHybridGradient.cleanupFields
      (PrimalDualHybridGradient.initFields p)).x_old = false ∧
    (GradientMethod.cleanupFields acc pg (GradientMethod.initFields acc pg f)).z =
      (if acc then false else f.z) ∧
    (GradientMethod.cleanupFields acc pg (GradientMethod.initFields acc pg f)).t =
      (if acc then false else f.t) ∧
    (GradientMethod.cleanupFields acc pg (GradientMethod.initFields acc pg f)).x_old =
      (if acc || pg then false else f.x_old) ∧
    (GradientMethod.cleanupFields acc pg (GradientMethod.initFields acc pg f)).resid =
      true ∧
    cgNewFields.rzold = true ∧
    cgNewFields.r = false ∧ cgNewFields.p = false ∧
    cgNewFields.zero_gradient = false ∧ cgNewFields.resid = false ∧
    (ConjugateGradient.cleanupFields (ConjugateGradient.initFields c)).r = false ∧
    (ConjugateGradient.cleanupFields (ConjugateGradient.initFields c)).p = false ∧
    (ConjugateGradient.cleanupFields (ConjugateGradient.initFields c)).rzold = false ∧
    (ConjugateGradient.cleanupFields (ConjugateGradient.initFields c)).zero_gradient =
      true ∧
    (ConjugateGradient.cleanupFields (ConjugateGradient.initFields c)).resid = true := by
  cases acc <;> cases pg <;>
    simp [GradientMethod.initFields, GradientMethod.cleanupFields,
      ConjugateGradient.initFields, ConjugateGradient.cleanupFields,
      PrimalDualHybridGradient.initFields, PrimalDualHybridGradient.cleanupFields,
      cgNewFields]

/-! ### LinearLeastSquares assembly (app.py lines 104-460)

Operator and proximal capabilities are external: they are modelled as plain
functions.  Only presence matters for the selection logic, so proxg, G and R
enter it as Booleans.  The selection mirrors the alg_name defaulting and the
per-path validation of LinearLeastSquares, raising ValueError through
Except.error with the source messages. -/

inductive AlgChoice : Type where
  | cg : AlgChoice
  | gm : AlgChoice
  | pdhg : AlgChoice
deriving DecidableEq

namespace LinearLeastSquares

/-- The alg_name defaulting of LinearLeastSquares: ConjugateGradient without
proxg, GradientMethod with proxg but no G, PrimalDualHybridGradient with
both. -/
def resolveAlgName (algName : Option String) (proxgPresent Gpresent : Bool) :
    String :=
  match algName with
  | some s => s
  | none =>
    if proxgPresent = false then "ConjugateGradient"
    else if Gpresent = false then "GradientMethod"
    else "PrimalDualHybridGradient"

/-- The dispatch and validation of LinearLeastSquares on the resolved
algorithm name. -/
def getAlg (algName : Option String) (proxgPresent Gpresent Rpresent : Bool) :
    Except String AlgChoice :=
  let name := resolveAlgName algName proxgPresent Gpresent
  if name = "ConjugateGradient" then
    if proxgPresent then
      Except.error "ConjugateGradient cannot have proxg specified."
    else Except.ok AlgChoice.cg
  else if name = "GradientMethod" then
    if Gpresent then
      Except.error "GradientMethod cannot have G specified."
    else Except.ok AlgChoice.gm
  else if name = "PrimalDualHybridGradient" then
    if Rpresent then
      Except.error
        "PrimalDualHybridGradient cannot have R specified.Please consider stacking R with A."
    else Except.ok AlgChoice.pdhg
  else Except.error ("Invalid alg_name: " ++ name ++ ".")

/-- Elementwise weighting: the W of the weighted problem, identity when no
weights are given. -/
def wmul {m : ℕ} (weights : Option (Arr m)) (v : Arr m) : Arr m :=
  match weights with
  | some w => fun i => w i * v i
  | none => v

/-- The RᴴR regularization term of the normal operator; the identity when R
is absent (then lamda multiplies I). -/
def rTerm {n k : ℕ} (R : Option ((Arr n → Arr k) × (Arr k → Arr n)))
    (x : Arr n) : Arr n :=
  match R with
  | some Rp => Rp.2 (Rp.1 x)
  | none => x

/-- The normal operator built by the ConjugateGradient path: AᴴWA, plus
lamda I or lamda RᴴR when lamda is nonzero, plus mu I when mu is nonzero. -/
noncomputable def cgAHA {n m k : ℕ} (A : Arr n → Arr m) (AH : Arr m → Arr n)
    (weights : Option (Arr m)) (lamda : ℝ)
    (R : Option ((Arr n → Arr k) × (Arr k → Arr n))) (mu : ℝ) :
    Arr n → Arr n :=
  let AHA0 : Arr n → Arr n :=
    match weights with
    | some w => fun x => AH (fun i => w i * A x i)
    | none => fun x => AH (A x)
  let AHA1 : Arr n → Arr n :=
    if lamda ≠ 0 then
      match R with
      | none => fun x => fun i => AHA0 x i + lamda * x i
      | some Rp => fun x => fun i => AHA0 x i + lamda * Rp.2 (Rp.1 x) i
    else AHA0
  if mu ≠ 0 then fun x => fun i => AHA1 x i + mu * x i else AHA1

/-- The right-hand side installed into the CG algorithm by the app init:
b = Aᴴ(Wy), plus mu z when mu is nonzero. -/
noncomputable def cgB {n m : ℕ} (AH : Arr m → Arr n)
    (weights : Option (Arr m)) (y : Arr m) (mu : ℝ) (z : Arr n) : Arr n :=
  let y2 := match weights with
    | some w => fun i => w i * y i
    | none => y
  let b := AH y2
  if mu ≠ 0 then fun i => b i + mu * z i else b

end LinearLeastSquares

/-- C1: with no explicit name, absent proxg selects ConjugateGradient,
proxg without G selects GradientMethod, proxg with G selects
PrimalDualHybridGradient; assembly fails whenever proxg accompanies the
ConjugateGradient path, G the GradientMethod path, or R the
PrimalDualHybridGradient path; and the ConjugateGradient path solves the
normal equations (AᴴWA + lamda RᴴR + mu I) x = Aᴴ(Wy) + mu z. -/
theorem LinearLeastSquares.alg_selection :
    (∀ Gp Rp : Bool, LinearLeastSquares.getAlg none false Gp Rp =
      Except.ok AlgChoice.cg) ∧
    (∀ Rp : Bool, LinearLeastSquares.getAlg none true false Rp =
      Except.ok AlgChoice.gm) ∧
    (LinearLeastSquares.getAlg none true true false = Except.ok AlgChoice.pdhg) ∧
    (∀ Gp Rp : Bool, LinearLeastSquares.getAlg (some "ConjugateGradient") true Gp Rp =
      Except.error "ConjugateGradient cannot have proxg specified.") ∧
    (∀ pp Rp : Bool, LinearLeastSquares.getAlg (some "GradientMethod") pp true Rp =
      Except.error "GradientMethod cannot have G specified.") ∧
    (∀ pp Gp : Bool, LinearLeastSquares.getAlg (some "PrimalDualHybridGradient") pp Gp true =
      Except.error
        "PrimalDualHybridGradient cannot have R specified.Please consider stacking R with A.") ∧
    (LinearLeastSquares.getAlg none true true true =
      Except.error
        "PrimalDualHybridGradient cannot have R specified.Please consider stacking R with A.") ∧
    (∀ (n m k : ℕ) (A : Arr n → Arr m) (AH : Arr m → Arr n)
      (weights : Option (Arr m)) (lamda : ℝ)
      (R : Option ((Arr n → Arr k) × (Arr k → Arr n))) (mu : ℝ) (x : Arr n) (i : Fin n),
      LinearLeastSquares.cgAHA A AH weights lamda R mu x i =
        AH (LinearLeastSquares.wmul weights (A x)) i +
          lamda * LinearLeastSquares.rTerm R x i + mu * x i) ∧
    (∀ (n m : ℕ) (AH : Arr m → Arr n) (weights : Option (Arr m))
      (y : Arr m) (mu : ℝ) (z : Arr n) (i : Fin n),
      LinearLeastSquares.cgB AH weights y mu z i =
        AH (LinearLeastSquares.wmul weights y) i + mu * z i) := by
  refine ⟨?_, ?_, rfl, ?_, ?_, ?_, rfl, ?_, ?_⟩
  · intro Gp Rp; rfl
  · intro Rp; rfl
  · intro Gp Rp; rfl
  · intro pp Rp; cases pp <;> rfl
  · intro pp Gp; cases pp <;> rfl
  · intro n m k A AH weights lamda R mu x i
    by_cases hl : lamda = 0
    · by_cases hm : mu = 0
      · cases weights <;> cases R <;>
          simp [LinearLeastSquares.cgAHA, LinearLeastSquares.wmul,
            LinearLeastSquares.rTerm, hl, hm]
      · cases weights <;> cases R <;>
          simp [LinearLeastSquares.cgAHA, LinearLeastSquares.wmul,
            LinearLeastSquares.rTerm, hl, hm]
    · by_cases hm : mu = 0
      · cases weights <;> cases R <;>
          simp [LinearLeastSquares.cgAHA, LinearLeastSquares.wmul,
            LinearLeastSquares.rTerm, hl, hm]
      · cases weights <;> cases R <;>
          simp [LinearLeastSquares.cgAHA, LinearLeastSquares.wmul,
            LinearLeastSquares.rTerm, hl, hm]
  · intro n m AH weights y mu z i
    by_cases hm : mu = 0
    · cases weights <;>
        simp [LinearLeastSquares.cgB, LinearLeastSquares.wmul, hm]
    · cases weights <;>
        simp [LinearLeastSquares.cgB, LinearLeastSquares.wmul, hm]

/-- The strong-convexity parameters LinearLeastSquares passes to
PrimalDualHybridGradient: gamma_primal is lamda + mu (or mu when R is
present) when lamda > 0 or mu > 0, else 0; gamma_dual is 1 when G is
absent and is left at the constructor default 0 when G is present. -/
noncomputable def LinearLeastSquares.pdhgGammas (lamda mu : ℝ)
    (Rpresent Gpresent : Bool) : ℝ × ℝ :=
  (if 0 < lamda ∨ 0 < mu then (if Rpresent then mu else lamda + mu) else 0,
   if Gpresent then 0 else 1)

/-- C10: the G-absent primal-dual path fixes gamma_dual = 1 (and the
G-present path leaves it 0), and with lamda = mu = 0 gamma_primal is 0, so
one PDHG update under those parameters rebalances the step sizes (tau
strictly grows and sigma strictly shrinks) even though the caller supplied
no strong-convexity parameter. -/
theorem LinearLeastSquares.pdhg_gamma_dual_default {n m : ℕ}
    (proxfc : ℝ → Arr m → Arr m) (proxg : ℝ → Arr n → Arr n)
    (A : Arr n → Arr m) (AH : Arr m → Arr n) (gradh : Option (Arr n → Arr n))
    (theta : ℝ) (Rp : Bool) (s : PDHGState n m)
    (ht : 0 < s.tau) (hs : 0 < s.sigma) :
    (∀ lamda mu : ℝ, (LinearLeastSquares.pdhgGammas lamda mu Rp false).2 = 1) ∧
    (∀ lamda mu : ℝ, (LinearLeastSquares.pdhgGammas lamda mu Rp true).2 = 0) ∧
    (LinearLeastSquares.pdhgGammas 0 0 Rp false).1 = 0 ∧
    (s.tau < (PrimalDualHybridGradient.update
        { proxfc := proxfc, proxg := proxg, A := A, AH := AH, gradh := gradh,
          theta := theta,
          gammaPrimal := (LinearLeastSquares.pdhgGammas 0 0 Rp false).1,
          gammaDual := (LinearLeastSquares.pdhgGammas 0 0 Rp false).2 } s).tau ∧
      (PrimalDualHybridGradient.update
        { proxfc := proxfc, proxg := proxg, A := A, AH := AH, gradh := gradh,
          theta := theta,
          gammaPrimal := (LinearLeastSquares.pdhgGammas 0 0 Rp false).1,
          gammaDual := (LinearLeastSquares.pdhgGammas 0 0 Rp false).2 } s).sigma <
        s.sigma) := by
  have hgp : (LinearLeastSquares.pdhgGammas 0 0 Rp false).1 = 0 := by
    simp [LinearLeastSquares.pdhgGammas]
  have hgd : (LinearLeastSquares.pdhgGammas 0 0 Rp false).2 = 1 := by
    simp [LinearLeastSquares.pdhgGammas]
  refine ⟨?_, ?_, hgp, ?_⟩
  · intro lamda mu; simp [LinearLeastSquares.pdhgGammas]
  · intro lamda mu; simp [LinearLeastSquares.pdhgGammas]
  · rw [PrimalDualHybridGradient.update_tau, PrimalDualHybridGradient.update_sigma]
    simp only [hgp, hgd]
    exact PrimalDualHybridGradient.rebalance_dual theta one_pos ht hs

/-- The concrete PDHG parameters the G-absent least-squares path builds when
lamda = mu = 0. -/
noncomputable def llsNoGParams : PDHGParams 1 1 :=
  { proxfc := fun _ v => v, proxg := fun _ v => v,
    A := fun v => v, AH := fun v => v, gradh := none, theta := 1,
    gammaPrimal := (LinearLeastSquares.pdhgGammas 0 0 false false).1,
    gammaDual := (LinearLeastSquares.pdhgGammas 0 0 false false).2 }

/-- C10 witness: at the concrete instance the step sizes are rebalanced. -/
theorem LinearLeastSquares.pdhg_gamma_dual_default_witness :
    pdhgUnitState.tau <
      (PrimalDualHybridGradient.update llsNoGParams pdhgUnitState).tau ∧
    (PrimalDualHybridGradient.update llsNoGParams pdhgUnitState).sigma <
      pdhgUnitState.sigma :=
  (LinearLeastSquares.pdhg_gamma_dual_default (fun _ v => v) (fun _ v => v)
    (fun v => v) (fun v => v) none 1 false pdhgUnitState
    (by norm_num [pdhgUnitState]) (by norm_num [pdhgUnitState])).2.2.2

/-- The objective of LinearLeastSquares: the weighted data term, the lamda
and mu quadratic terms, and the g term; raises when proxg is present but g
was not supplied (the g value cannot be recovered from a proximal operator
alone). -/
noncomputable def LinearLeastSquares.objective {n m : ℕ}
    (A : Arr n → Arr m) (y : Arr m) (x : Arr n) (weights : Option (Arr m))
    (lamda : ℝ) (R : Option (Arr n → Arr n)) (mu : ℝ) (z : Arr n)
    (proxgPresent : Bool) (g : Option (Arr n → ℝ)) (G : Option (Arr n → Arr n)) :
    Except String ℝ :=
  let r0 := fun i => A x i - y i
  let r := match weights with
    | some w => fun i => Real.sqrt (w i) * r0 i
    | none => r0
  let obj0 := 1 / 2 * util.norm2 r
  let obj1 :=
    if 0 < lamda then
      obj0 + lamda / 2 *
        (match R with
         | none => util.norm2 x
         | some Rf => util.norm2 (Rf x))
    else obj0
  let obj2 :=
    if mu ≠ 0 then obj1 + mu / 2 * util.norm2 (fun i => x i - z i) else obj1
  if proxgPresent then
    match g with
    | none =>
      Except.error "Cannot compute objective when proxg is specified,but g is not."
    | some gf =>
      Except.ok (obj2 + (match G with | none => gf x | some Gf => gf (Gf x)))
  else Except.ok obj2

/-- The summarize hook of LinearLeastSquares: evaluates the objective only
when objective values were requested, propagating its failure. -/
noncomputable def LinearLeastSquares.summarizeHook {n m : ℕ}
    (save_objective_values : Bool)
    (A : Arr n → Arr m) (y : Arr m) (x : Arr n) (weights : Option (Arr m))
    (lamda : ℝ) (R : Option (Arr n → Arr n)) (mu : ℝ) (z : Arr n)
    (proxgPresent : Bool) (g : Option (Arr n → ℝ)) (G : Option (Arr n → Arr n)) :
    Except String Unit :=
  if save_objective_values then
    match LinearLeastSquares.objective A y x weights lamda R mu z proxgPresent g G with
    | Except.error e => Except.error e
    | Except.ok _ => Except.ok ()
  else Except.ok ()

/-- A least-squares app on the proxg-with-G path, with objective values
requested but no closed-form g supplied; its assembly-time validation had
already succeeded. -/
noncomputable def llsMissingGApp : HApp ℕ :=
  { algInit := id,
    algUpdate := fun s => Except.ok (s + 1),
    algDone := fun s => decide (3 ≤ s),
    algCleanup := id,
    summarize := fun _ =>
      LinearLeastSquares.summarizeHook true
        (fun v : Arr 1 => v) 0 0 none 0 none 0 0 true none (some (fun v => v)) }

/-- C3 counterexample: the configuration proxg present, G present, g absent,
objective values requested passes the assembly-time validation, yet the run
fails mid-iteration (after an update event) with the objective error,
refuting the claim that this error is raised at assembly time and never
mid-iteration. -/
theorem LinearLeastSquares.objective_error_is_mid_iteration :
    LinearLeastSquares.getAlg none true true false = Except.ok AlgChoice.pdhg ∧
    (App.run llsMissingGApp 10 0).2 =
      Except.error "Cannot compute objective when proxg is specified,but g is not." ∧
    HEv.update ∈ (App.run llsMissingGApp 10 0).1 := by
  refine ⟨rfl, rfl, ?_⟩
  exact List.Mem.head _

/-- C3 amended: the mutually-exclusive-option errors are raised by the
assembly-time validation, but the objective-without-g error is raised only
when the objective is evaluated — it happens exactly when proxg is present
and g is absent, never on the validation path, and it surfaces through the
summarize hook only when objective values were requested. -/
theorem LinearLeastSquares.objective_error_timing {n m : ℕ}
    (A : Arr n → Arr m) (y : Arr m) (x : Arr n) (weights : Option (Arr m))
    (lamda : ℝ) (R : Option (Arr n → Arr n)) (mu : ℝ) (z : Arr n)
    (G : Option (Arr n → Arr n)) (gf : Arr n → ℝ) :
    (LinearLeastSquares.objective A y x weights lamda R mu z true none G =
      Except.error "Cannot compute objective when proxg is specified,but g is not.") ∧
    (∃ v, LinearLeastSquares.objective A y x weights lamda R mu z true (some gf) G =
      Except.ok v) ∧
    (∃ v, LinearLeastSquares.objective A y x weights lamda R mu z false none G =
      Except.ok v) ∧
    (LinearLeastSquares.getAlg none true true false = Except.ok AlgChoice.pdhg) ∧
    (LinearLeastSquares.summarizeHook true A y x weights lamda R mu z true none G =
      Except.error "Cannot compute objective when proxg is specified,but g is not.") ∧
    (LinearLeastSquares.summarizeHook false A y x weights lamda R mu z true none G =
      Except.ok ()) :=
  ⟨rfl, ⟨_, rfl⟩, ⟨_, rfl⟩, rfl, rfl, rfl⟩

/-! ### L2ConstrainedMinimization (app.py lines 463-517) -/

/-- The step-size branch of the app init: when tau or sigma is missing,
both are set to the defaults tau = 1 and sigma = 1/max_eig; only when both
were supplied are the callers values kept. -/
noncomputable def L2ConstrainedMinimization.initStep (tau sigma : Option ℝ)
    (maxEig : ℝ) : ℝ × ℝ :=
  match tau, sigma with
  | some t, some s => (t, s)
  | _, _ => (1, 1 / maxEig)

/-- C6 counterexample: with tau supplied as 2 and sigma missing, the init
overwrites tau with the default 1, refuting the claim that a supplied value
is used as given whenever either step size is supplied. -/
theorem L2ConstrainedMinimization.default_overwrites_supplied_tau :
    (L2ConstrainedMinimization.initStep (some 2) none 4).1 = 1 ∧ (2 : ℝ) ≠ 1 := by
  exact ⟨rfl, by norm_num⟩

/-- C6 amended: the defaults tau = 1 and sigma = 1/max_eig are applied
whenever at least one of the two step sizes is missing, overwriting any
supplied one; the callers values are used exactly when both are supplied. -/
theorem L2ConstrainedMinimization.defaults_when_either_missing
    (t s maxEig : ℝ) :
    L2ConstrainedMinimization.initStep none none maxEig = (1, 1 / maxEig) ∧
    L2ConstrainedMinimization.initStep (some t) none maxEig = (1, 1 / maxEig) ∧
    L2ConstrainedMinimization.initStep none (some s) maxEig = (1, 1 / maxEig) ∧
    L2ConstrainedMinimization.initStep (some t) (some s) maxEig = (t, s) :=
  ⟨rfl, rfl, rfl, rfl⟩
